import Mathlib

/-!
Verification of the `osc` crate, a binary codec for the Open Sound Control
wire format. Rust sources are shallowly embedded: bytes are `Nat` values
below 256, byte iterators are `List Nat` consumed front to back, and every
decoder returns the decoded value together with the unconsumed remainder of
its input. Fallible paths return `Except`; the two spots where the source
calls `unwrap_unchecked` on a possibly failing decode (undefined behavior
when it fails) are modelled with `Option`, `none` standing for that
undefined behavior.
-/

namespace Osc

/-- From src/batch.rs (`Batched::next` together with `Cache::new`): align an
iterator to 4-byte batches by padding with zeros at the end. An exhausted
source ends the stream; otherwise one byte is pulled, then `Cache::new`
pulls the next three with `unwrap_or(0)`, so a final group of one, two or
three bytes is completed with zero defaults and a full group is passed
through before the loop continues on the remainder. -/
def batchedRun : List Nat → List Nat
  | [] => []
  | [a] => [a, 0, 0, 0]
  | [a, b] => [a, b, 0, 0]
  | [a, b, c] => [a, b, c, 0]
  | a :: b :: c :: d :: rest => a :: b :: c :: d :: batchedRun rest

/-- From src/decode.rs lines 22-29: the error wrapper for 4-byte-aligned
reads. As declared there it has exactly the two constructors below.
(src/dynamic.rs line 216 pattern-matches a further variant spelled
Misaligned4B::End, which this declaration does not provide.) -/
inductive Misaligned4B (E : Type) where
  | Misaligned : Misaligned4B E
  | Other : E → Misaligned4B E
deriving DecidableEq, Repr

/-- From src/decode.rs lines 45-56 (`impl Decode for Aligned4B`): pull four
bytes; every failing pull, including the very first, yields
`Misaligned4B::Misaligned`. The error type parameter is `Infallible`,
modelled by `Empty`. -/
def aligned4B_decode : List Nat →
    Except (Misaligned4B Empty) ((Nat × Nat × Nat × Nat) × List Nat)
  | a :: b :: c :: d :: rest => .ok ((a, b, c, d), rest)
  | _ => .error .Misaligned

---------------- the OSC address (src/address.rs) ----------------

/-- From src/atomic.rs lines 140-147: invalid data in conversion from Rust
to OSC. -/
inductive InvalidContents where
  | NonAscii
  | NullInString
deriving DecidableEq, Repr

/-- From src/address.rs lines 14-25: error in an OSC address. -/
inductive AddressErr where
  | Empty
  | InvalidCharacter (c : Nat)
  | StringErr (e : InvalidContents)
deriving DecidableEq, Repr

/-- From src/address.rs lines 62-71 (`valid_address_character`): printable
ASCII except the blacklist of the OSC spec. The blacklist arm of the match
comes first, exactly as in the source. -/
def valid_address_character (c : Nat) : Bool :=
  if c = 32 ∨ c = 35 ∨ c = 42 ∨ c = 44 ∨ c = 47 ∨ c = 63 ∨ c = 91 ∨ c = 93 ∨
      c = 123 ∨ c = 125 then
    false
  else if 32 ≤ c ∧ c ≤ 126 then true
  else false

/-- From src/address.rs lines 98-102 and 113-117: the per-character scan of
the tail of a segment inside `into_address` (the `for c in s` loop). -/
def find_invalid : List Nat → Option AddressErr
  | [] => none
  | c :: rest =>
    if valid_address_character c then find_invalid rest
    else some (.InvalidCharacter c)

/-- From src/address.rs lines 89-103 (and 104-117 for the method): validate
one segment inside `into_address`: an exhausted iterator is `Empty`, an
invalid first character is `InvalidCharacter`, then the rest is scanned. -/
def segment_check : List Nat → Option AddressErr
  | [] => some .Empty
  | c :: rest =>
    if valid_address_character c then find_invalid rest
    else some (.InvalidCharacter c)

/-- From src/address.rs lines 85-103: validate every path segment of
`into_address` in order, stopping at the first failure. -/
def path_check : List (List Nat) → Option AddressErr
  | [] => none
  | s :: rest =>
    match segment_check s with
    | some e => some e
    | none => path_check rest

/-- From src/address.rs lines 124-129: an OSC address, a path of segments
plus a method. Segments and the method are byte strings. -/
structure OscAddress where
  path : List (List Nat)
  method : List Nat
deriving DecidableEq, Repr

/-- From src/address.rs lines 83-119 (`IntoAddress::into_address`): validate
all path segments, then the method, and on success build the address. -/
def into_address (path : List (List Nat)) (method : List Nat) :
    Except AddressErr OscAddress :=
  match path_check path with
  | some e => .error e
  | none =>
    match segment_check method with
    | some e => .error e
    | none => .ok ⟨path, method⟩

/-- From src/address.rs lines 159-198 (`Iter::next`): the raw, unpadded
byte stream of an address, built from the list of path segments with the
method appended: a slash before every segment, and a null byte once the
segment iterator is exhausted. -/
def addressRaw : List (List Nat) → List Nat
  | [] => [0]
  | s :: rest => (47 :: s) ++ addressRaw rest

/-- From src/address.rs lines 131-157 (`impl IntoIterator for Address`):
the serialized address is the raw stream fed through the 4-byte padder. -/
def address_into_iter (a : OscAddress) : List Nat :=
  batchedRun (addressRaw (a.path ++ [a.method]))

/-- From src/address.rs lines 232-253: error while decoding an OSC
address. -/
inductive AddressDecodeErr where
  | LeadingSlash (actual : Nat)
  | NoMethod
  | EmptySegment
  | PatternsNotYetImplemented (c : Nat)
  | NotPrintableAscii (c : Nat)
  | NullThenNonNull
deriving DecidableEq, Repr

/-- The mutable state threaded through `parse_address_char` in
src/address.rs: the just-saw-slash flag and the growing segment list. -/
structure ParseState where
  post_slash : Bool
  v : List (List Nat)
deriving DecidableEq, Repr

/-- `v.last_mut().unwrap_unchecked().push(c)` of src/address.rs line 336:
append a byte to the last segment of the list (the list is never empty
where the source runs this, per its safety comment). -/
def pushLast : List (List Nat) → Nat → List (List Nat)
  | [], _ => []
  | [s], c => [s ++ [c]]
  | s :: t :: rest, c => s :: pushLast (t :: rest) c

/-- From src/address.rs lines 293-340 (`parse_address_char`): parse one
byte. `bytes` is the remainder of the current 4-byte unit, drained only in
the null-terminator branch. Returns the optional outcome (finished with the
method, or an error) paired with the updated state; `none` means keep
going. On success the method is popped off the segment list. -/
def parse_address_char (byte : Nat) (bytes : List Nat) (s : ParseState) :
    Option (Except (Misaligned4B AddressDecodeErr) (List Nat)) × ParseState :=
  if byte = 0 then
    if s.post_slash then (some (.error (.Other .NoMethod)), s)
    else if bytes.all (· = 0) then
      (some (.ok (s.v.getLastD [])), ⟨s.post_slash, s.v.dropLast⟩)
    else (some (.error (.Other .NullThenNonNull)), s)
  else if byte = 47 then
    if s.post_slash then (some (.error (.Other .EmptySegment)), s)
    else (none, ⟨s.post_slash, s.v ++ [[]]⟩)
  else if byte = 32 ∨ byte = 35 ∨ byte = 42 ∨ byte = 44 ∨ byte = 63 ∨
      byte = 91 ∨ byte = 93 ∨ byte = 123 ∨ byte = 125 then
    (some (.error (.Other (.PatternsNotYetImplemented byte))), s)
  else if byte ≤ 31 ∨ 127 ≤ byte then
    (some (.error (.Other (.NotPrintableAscii byte))), s)
  else (none, ⟨false, pushLast s.v byte⟩)

/-- From src/address.rs lines 342-358 (`parse_address_chars`): run
`parse_address_char` over a unit's bytes until one reports an outcome. -/
def parse_address_chars (bytes : List Nat) (s : ParseState) :
    Option (Except (Misaligned4B AddressDecodeErr) (List Nat)) × ParseState :=
  match bytes with
  | [] => (none, s)
  | b :: rest =>
    match parse_address_char b rest s with
    | (some r, s') => (some r, s')
    | (none, s') => parse_address_chars rest s'

/-- From src/address.rs lines 395-402: the main loop of `Address::decode`,
reading one 4-byte unit at a time (fewer than four available bytes is
`Misaligned`) and feeding it to `parse_address_chars`. -/
def address_decode_loop :
    List Nat → ParseState →
      Except (Misaligned4B AddressDecodeErr) (OscAddress × List Nat)
  | b0 :: b1 :: b2 :: b3 :: rest, s =>
    match parse_address_chars [b0, b1, b2, b3] s with
    | (some (.error e), _) => .error e
    | (some (.ok m), s') => .ok (⟨s'.v, m⟩, rest)
    | (none, s') => address_decode_loop rest s'
  | _, _ => .error .Misaligned

/-- From src/address.rs lines 360-404 (`impl Decode for Address`): read the
first unit, require a leading slash, parse the unit's three remaining bytes
starting from `post_slash = true` and a single empty segment, then loop
over further units. -/
def address_decode :
    List Nat → Except (Misaligned4B AddressDecodeErr) (OscAddress × List Nat)
  | b0 :: b1 :: b2 :: b3 :: rest =>
    if b0 ≠ 47 then .error (.Other (.LeadingSlash b0))
    else
      match parse_address_char b1 [b2, b3] ⟨true, [[]]⟩ with
      | (some (.error e), _) => .error e
      | (some (.ok m), s') => .ok (⟨s'.v, m⟩, rest)
      | (none, s') =>
        match parse_address_chars [b2, b3] s' with
        | (some (.error e), _) => .error e
        | (some (.ok m), s'') => .ok (⟨s''.v, m⟩, rest)
        | (none, s'') => address_decode_loop rest s''
  | _ => .error .Misaligned

/-- Proof-side helper: the tail of `Address::decode` once a part of the
current 4-byte unit remains to be parsed — parse that chunk, then continue
with `address_decode_loop` on the remaining whole units. `address_decode`
and `address_decode_loop` both reduce to it. -/
def address_decode_from (chunk rest : List Nat) (s : ParseState) :
    Except (Misaligned4B AddressDecodeErr) (OscAddress × List Nat) :=
  match parse_address_chars chunk s with
  | (some (.error e), _) => .error e
  | (some (.ok m), s') => .ok (⟨s'.v, m⟩, rest)
  | (none, s') => address_decode_loop rest s'

/-- Proof-side helper: the per-byte state machine run over a stretch of
non-null bytes. For a non-null byte `parse_address_char` never touches its
drain source, so running it with an empty one is equivalent; the third arm
is unreachable on non-null bytes. -/
def foldNonZero : List Nat → ParseState →
    Except (Misaligned4B AddressDecodeErr) ParseState
  | [], s => .ok s
  | b :: rest, s =>
    match parse_address_char b [] s with
    | (none, s') => foldNonZero rest s'
    | (some (.error e), _) => .error e
    | (some (.ok _), _) => .error .Misaligned

/-- Proof-side helper: the raw address stream without its final null byte,
a slash before every segment. -/
def addrBody : List (List Nat) → List Nat
  | [] => []
  | s :: rest => (47 :: s) ++ addrBody rest

---------------- type tags (src/tag.rs, src/dynamic.rs) ----------------

/-- From src/tag.rs lines 9-20: error while decoding OSC type tags. -/
inductive TagDecodeErr where
  | UnrecognizedTypeTag (c : Nat)
  | MissingComma (c : Nat)
  | NullThenNonNull
deriving DecidableEq, Repr

/-- From src/tag.rs lines 45-58: single-character OSC type tag. -/
inductive Tag where
  | Integer
  | Float
  | String
  | Blob
deriving DecidableEq, Repr

/-- The `repr(u8)` discriminants of `Tag`: the bytes of i, f, s, b. -/
def Tag.toByte : Tag → Nat
  | .Integer => 105
  | .Float => 102
  | .String => 115
  | .Blob => 98

/-- From src/tag.rs lines 60-73 (`impl TryFrom for Tag`). -/
def Tag.tryFrom (value : Nat) : Except TagDecodeErr Tag :=
  if value = 105 then .ok .Integer
  else if value = 102 then .ok .Float
  else if value = 115 then .ok .String
  else if value = 98 then .ok .Blob
  else .error (.UnrecognizedTypeTag value)

/-- From src/dynamic.rs lines 14-18: an unknown number of OSC type tags. -/
structure Tags where
  val : List Tag
deriving DecidableEq, Repr

/-- From src/dynamic.rs lines 20-39 (`impl IntoIterator for Tags`): a
comma, each tag's byte, a null terminator, all through the padder. -/
def tags_into_iter (t : Tags) : List Nat :=
  batchedRun (44 :: t.val.map Tag.toByte ++ [0])

/-- The per-byte scan inside `Tags::decode` (src/dynamic.rs lines 48-98):
within one unit, a null byte requires every remaining byte of the unit to
be null and finishes; any other byte must be a recognized tag. The source
unrolls this over the four fields of an `Aligned4B`. -/
def tags_scan_chunk (acc : List Tag) :
    List Nat → Option (Except (Misaligned4B TagDecodeErr) (List Tag)) × List Tag
  | [] => (none, acc)
  | b :: rest =>
    if b = 0 then
      if rest.all (· = 0) then (some (.ok acc), acc)
      else (some (.error (.Other .NullThenNonNull)), acc)
    else
      match Tag.tryFrom b with
      | .error e => (some (.error (.Other e)), acc)
      | .ok t => tags_scan_chunk (acc ++ [t]) rest

/-- From src/dynamic.rs lines 71-98: the main loop of `Tags::decode` over
whole 4-byte units. -/
def tags_decode_loop (acc : List Tag) :
    List Nat → Except (Misaligned4B TagDecodeErr) (Tags × List Nat)
  | b0 :: b1 :: b2 :: b3 :: rest =>
    match tags_scan_chunk acc [b0, b1, b2, b3] with
    | (some (.error e), _) => .error e
    | (some (.ok ts), _) => .ok (⟨ts⟩, rest)
    | (none, acc') => tags_decode_loop acc' rest
  | _ => .error .Misaligned

/-- From src/dynamic.rs lines 42-99 (`impl Decode for Tags`): the first
unit must start with a comma, its other three bytes are scanned, then the
loop continues over further units. -/
def tags_decode :
    List Nat → Except (Misaligned4B TagDecodeErr) (Tags × List Nat)
  | b0 :: b1 :: b2 :: b3 :: rest =>
    if b0 ≠ 44 then .error (.Other (.MissingComma b0))
    else
      match tags_scan_chunk [] [b1, b2, b3] with
      | (some (.error e), _) => .error e
      | (some (.ok ts), _) => .ok (⟨ts⟩, rest)
      | (none, acc') => tags_decode_loop acc' rest
  | _ => .error .Misaligned

---------------- atomic values (src/atomic.rs) ----------------

/-- From src/atomic.rs lines 45-47: a 32-bit big-endian integer, stored as
its four wire bytes. -/
structure Integer where
  bytes : List Nat
deriving DecidableEq, Repr

/-- From src/atomic.rs lines 48-50: a 32-bit big-endian IEEE 754 float,
stored as its four wire bytes. -/
structure Float where
  bytes : List Nat
deriving DecidableEq, Repr

/-- From src/atomic.rs lines 51-53: the borrowed string flavor. -/
structure String where
  bytes : List Nat
deriving DecidableEq, Repr

/-- From src/atomic.rs lines 54-56: the borrowed blob flavor, an arbitrary
known-length collection of bytes. -/
structure Blob where
  bytes : List Nat
deriving DecidableEq, Repr

/-- From src/atomic.rs lines 58-61: the owned string flavor. -/
structure DynamicString where
  bytes : List Nat
deriving DecidableEq, Repr

/-- From src/atomic.rs lines 62-66: the owned blob flavor. -/
structure DynamicBlob where
  bytes : List Nat
deriving DecidableEq, Repr

/-- From src/atomic.rs lines 278-285 (`impl IntoIterator for Integer`). -/
def integer_into_iter (i : Integer) : List Nat :=
  batchedRun i.bytes

/-- From src/atomic.rs lines 287-294 (`impl IntoIterator for Float`). -/
def float_into_iter (f : Float) : List Nat :=
  batchedRun f.bytes

/-- From src/atomic.rs lines 296-303 (`impl IntoIterator for String`):
content bytes, a null terminator, then padding. -/
def string_into_iter (s : String) : List Nat :=
  batchedRun (s.bytes ++ [0])

/-- From src/atomic.rs lines 305-312 (`impl IntoIterator for Blob`): the
content bytes fed straight through the padder. -/
def blob_into_iter (b : Blob) : List Nat :=
  batchedRun b.bytes

/-- From src/atomic.rs lines 331-339 (`impl IntoIterator for
DynamicString`). -/
def dynamicString_into_iter (s : DynamicString) : List Nat :=
  batchedRun (s.bytes ++ [0])

/-- From src/atomic.rs lines 341-349 (`impl IntoIterator for DynamicBlob`):
the owned content bytes fed straight through the padder. -/
def dynamicBlob_into_iter (b : DynamicBlob) : List Nat :=
  batchedRun b.bytes

/-- From src/atomic.rs lines 236-249 (`impl TryFrom of String for
DynamicString`): reject a non-ASCII byte, then reject an interior null. -/
def dynamicString_tryFrom (s : List Nat) : Except InvalidContents DynamicString :=
  if ¬ s.all (· ≤ 127) then .error .NonAscii
  else if s.contains 0 then .error .NullInString
  else .ok ⟨s⟩

/-- From src/atomic.rs lines 369-378: error while decoding an OSC string. -/
inductive StringDecodeErr where
  | NonAscii (c : Nat)
  | NullThenNonNull
deriving DecidableEq, Repr

/-- From src/atomic.rs lines 401-448 (`impl Decode for DynamicString`): the
loop body, one `Aligned4B` unit per iteration, with the source's unrolled
per-byte checks: a null byte demands the rest of the unit be null and
finishes; otherwise the byte must be ASCII and is pushed. -/
def dynamicString_decode_loop (acc : List Nat) :
    List Nat → Except (Misaligned4B StringDecodeErr) (DynamicString × List Nat)
  | a :: b :: c :: d :: rest =>
    if a = 0 then
      if b ≠ 0 ∨ c ≠ 0 ∨ d ≠ 0 then .error (.Other .NullThenNonNull)
      else .ok (⟨acc⟩, rest)
    else if 127 < a then .error (.Other (.NonAscii a))
    else if b = 0 then
      if c ≠ 0 ∨ d ≠ 0 then .error (.Other .NullThenNonNull)
      else .ok (⟨acc ++ [a]⟩, rest)
    else if 127 < b then .error (.Other (.NonAscii b))
    else if c = 0 then
      if d ≠ 0 then .error (.Other .NullThenNonNull)
      else .ok (⟨acc ++ [a, b]⟩, rest)
    else if 127 < c then .error (.Other (.NonAscii c))
    else if d = 0 then .ok (⟨acc ++ [a, b, c]⟩, rest)
    else if 127 < d then .error (.Other (.NonAscii d))
    else dynamicString_decode_loop (acc ++ [a, b, c, d]) rest
  | _ => .error .Misaligned

/-- `DynamicString::decode` starts from an empty string. -/
def dynamicString_decode (l : List Nat) :
    Except (Misaligned4B StringDecodeErr) (DynamicString × List Nat) :=
  dynamicString_decode_loop [] l

/-- From src/atomic.rs lines 450-461: error while decoding an OSC blob. -/
inductive BlobDecodeErr where
  | NegativeSize
  | TooLong
  | NullThenNonNull
deriving DecidableEq, Repr

/-- The `for _ in 0..chunks` loop of `DynamicBlob::decode` (src/atomic.rs
lines 502-508): read the given number of 4-byte units, pushing all four
bytes of each. -/
def blobReadChunks :
    Nat → List Nat → List Nat →
      Except (Misaligned4B BlobDecodeErr) (DynamicBlob × List Nat)
  | 0, rest, acc => .ok (⟨acc⟩, rest)
  | n + 1, a :: b :: c :: d :: rest, acc =>
    blobReadChunks n rest (acc ++ [a, b, c, d])
  | _ + 1, _, _ => .error .Misaligned

/-- From src/atomic.rs lines 488-511 (`impl Decode for DynamicBlob`):
decode the size as an `Integer` (fewer than four bytes would make the
source's `unwrap_unchecked` undefined behavior, modelled as `none`), fail
with `NegativeSize` when the sign bit is set, then read `size >> 3` units
of four bytes each. -/
def dynamicBlob_decode (l : List Nat) :
    Option (Except (Misaligned4B BlobDecodeErr) (DynamicBlob × List Nat)) :=
  match l with
  | a :: b :: c :: d :: rest =>
    if 128 ≤ a then some (.error (.Other .NegativeSize))
    else
      let size := ((a * 256 + b) * 256 + c) * 256 + d
      let chunks := size >>> 3
      some (blobReadChunks chunks rest [])
  | _ => none

---------------- runtime-typed values (src/dynamic.rs) ----------------

/-- From src/dynamic.rs lines 115-128: OSC values whose types are unknown
at compile time. -/
inductive Data where
  | Integer : Osc.Integer → Data
  | Float : Osc.Float → Data
  | String : DynamicString → Data
  | Blob : DynamicBlob → Data
deriving DecidableEq, Repr

/-- From src/atomic.rs lines 104-116 (`impl Atomic for Data`): dispatch
`type_tag` on the embedded value. -/
def Data.type_tag : Data → Tag
  | .Integer _ => .Integer
  | .Float _ => .Float
  | .String _ => .String
  | .Blob _ => .Blob

/-- From src/atomic.rs lines 315-329 (`impl IntoIterator for Data`):
collect the embedded value's iterator and feed it through the padder
again. -/
def Data.into_iter : Data → List Nat
  | .Integer i => batchedRun (integer_into_iter i)
  | .Float f => batchedRun (float_into_iter f)
  | .String s => batchedRun (dynamicString_into_iter s)
  | .Blob b => batchedRun (dynamicBlob_into_iter b)

/-- From src/dynamic.rs lines 178-182: a vector of runtime-typed data. -/
structure Dynamic where
  val : List Data
deriving DecidableEq, Repr

/-- From src/dynamic.rs lines 184-191: errors while parsing an OSC message
of unknown structure. -/
inductive DynamicDecodeErr where
  | TypeTagErr (e : TagDecodeErr)
deriving DecidableEq, Repr

/-- From src/atomic.rs lines 353-359 (`impl Decode for Integer`): read one
unit. -/
def integer_decode :
    List Nat → Except (Misaligned4B Empty) (Integer × List Nat)
  | a :: b :: c :: d :: rest => .ok (⟨[a, b, c, d]⟩, rest)
  | _ => .error .Misaligned

/-- From src/atomic.rs lines 361-367 (`impl Decode for Float`): read one
unit. -/
def float_decode :
    List Nat → Except (Misaligned4B Empty) (Float × List Nat)
  | a :: b :: c :: d :: rest => .ok (⟨[a, b, c, d]⟩, rest)
  | _ => .error .Misaligned

/-- From src/dynamic.rs lines 222-236: the per-tag loop of
`Dynamic::decode`. Each atomic decode result is passed through
`unwrap_unchecked` in the source, so a failing decode is undefined
behavior, modelled here as `none`. -/
def dynamic_decode_values (acc : List Data) :
    List Tag → List Nat →
      Option (Except (Misaligned4B DynamicDecodeErr) (Dynamic × List Nat))
  | [], rest => some (.ok (⟨acc⟩, rest))
  | .Integer :: ts, rest =>
    match integer_decode rest with
    | .ok (i, r) => dynamic_decode_values (acc ++ [Data.Integer i]) ts r
    | .error _ => none
  | .Float :: ts, rest =>
    match float_decode rest with
    | .ok (f, r) => dynamic_decode_values (acc ++ [Data.Float f]) ts r
    | .error _ => none
  | .String :: ts, rest =>
    match dynamicString_decode rest with
    | .ok (s, r) => dynamic_decode_values (acc ++ [Data.String s]) ts r
    | .error _ => none
  | .Blob :: ts, rest =>
    match dynamicBlob_decode rest with
    | some (.ok (b, r)) => dynamic_decode_values (acc ++ [Data.Blob b]) ts r
    | _ => none

/-- From src/dynamic.rs lines 209-239 (`impl Decode for Dynamic`): decode
the `Tags` first (src/dynamic.rs line 216 also names a variant
Misaligned4B::End that src/decode.rs does not declare; only the declared
variants are representable here), then decode one atomic value per tag in
tag order. -/
def dynamic_decode (l : List Nat) :
    Option (Except (Misaligned4B DynamicDecodeErr) (Dynamic × List Nat)) :=
  match tags_decode l with
  | .error .Misaligned => some (.error .Misaligned)
  | .error (.Other e) => some (.error (.Other (.TypeTagErr e)))
  | .ok (tags, rest) => dynamic_decode_values [] tags.val rest

---------------- the message (src/message.rs) ----------------

/-- From src/message.rs lines 64-91 (`impl IntoIterator for Message`): the
padded address bytes, then the padded tag string (comma, each element's
tag byte in order, null terminator), then each element's own encoded bytes
chained in declared order. The payload is the runtime-typed list of
src/tuple.rs lines 187-204; for a fixed-arity tuple the chained bytes are
each element's `into_iter` output in order, which coincides with the
flattened per-element streams below. -/
def message_into_iter (a : OscAddress) (data : List Data) : List Nat :=
  address_into_iter a ++
    batchedRun (44 :: (data.map Data.type_tag).map Tag.toByte ++ [0]) ++
    (data.map Data.into_iter).flatten

---------------- helper lemmas on batching ----------------

theorem batched_eq : ∀ l : List Nat,
    batchedRun l = l ++ List.replicate ((4 - l.length % 4) % 4) 0
  | [] => rfl
  | [_] => rfl
  | [_, _] => rfl
  | [_, _, _] => rfl
  | a :: b :: c :: d :: rest => by
    have ih := batched_eq rest
    have hmod : (4 - (rest.length + 4) % 4) % 4 = (4 - rest.length % 4) % 4 := by
      omega
    simp only [batchedRun, ih, List.length_cons, List.cons_append]
    rw [show rest.length + 1 + 1 + 1 + 1 = rest.length + 4 by omega, hmod]

theorem batched_len_mod (l : List Nat) : (batchedRun l).length % 4 = 0 := by
  rw [batched_eq]
  simp only [List.length_append, List.length_replicate]
  omega

---------------- helper lemmas on the address state machine ----------------

theorem pac_bytes_irrel (b : Nat) (hb : b ≠ 0) (bytes bytes' : List Nat)
    (s : ParseState) :
    parse_address_char b bytes s = parse_address_char b bytes' s := by
  unfold parse_address_char
  rw [if_neg hb, if_neg hb]

theorem pac_ne_zero_cases (b : Nat) (hb : b ≠ 0) (bytes : List Nat)
    (s : ParseState) :
    (∃ s', parse_address_char b bytes s = (none, s')) ∨
    (∃ e, parse_address_char b bytes s = (some (.error e), s)) := by
  unfold parse_address_char
  rw [if_neg hb]
  split_ifs with h47 hps hbl hnp
  · exact .inr ⟨_, rfl⟩
  · exact .inl ⟨_, rfl⟩
  · exact .inr ⟨_, rfl⟩
  · exact .inr ⟨_, rfl⟩
  · exact .inl ⟨_, rfl⟩

theorem valid_char_props (c : Nat) (hc : valid_address_character c = true) :
    32 ≤ c ∧ c ≤ 126 ∧ ¬(c = 32 ∨ c = 35 ∨ c = 42 ∨ c = 44 ∨ c = 47 ∨
      c = 63 ∨ c = 91 ∨ c = 93 ∨ c = 123 ∨ c = 125) := by
  unfold valid_address_character at hc
  split_ifs at hc with h1 h2
  exact ⟨h2.1, h2.2, h1⟩

theorem pac_valid_char (c : Nat) (hc : valid_address_character c = true)
    (bytes : List Nat) (s : ParseState) :
    parse_address_char c bytes s = (none, ⟨false, pushLast s.v c⟩) := by
  obtain ⟨hlo, hhi, hbl⟩ := valid_char_props c hc
  unfold parse_address_char
  rw [if_neg (by omega), if_neg (by omega), if_neg (by omega),
    if_neg (by omega)]

theorem pac_slash (bytes : List Nat) (v : List (List Nat)) :
    parse_address_char 47 bytes ⟨false, v⟩ = (none, ⟨false, v ++ [[]]⟩) := by
  rfl

theorem pushLast_concat :
    ∀ (v : List (List Nat)) (last : List Nat) (c : Nat),
      pushLast (v ++ [last]) c = v ++ [last ++ [c]]
  | [], _, _ => rfl
  | [_], _, _ => rfl
  | a :: b :: v, last, c => by
    have ih := pushLast_concat (b :: v) last c
    simp only [List.cons_append] at ih ⊢
    rw [pushLast, ih]

theorem parse_address_chars_cons (b : Nat) (rest : List Nat) (s : ParseState) :
    parse_address_chars (b :: rest) s =
      match parse_address_char b rest s with
      | (some r, s') => (some r, s')
      | (none, s') => parse_address_chars rest s' :=
  rfl

theorem foldNonZero_cons (b : Nat) (rest : List Nat) (s : ParseState) :
    foldNonZero (b :: rest) s =
      match parse_address_char b [] s with
      | (none, s') => foldNonZero rest s'
      | (some (.error e), _) => .error e
      | (some (.ok _), _) => .error .Misaligned :=
  rfl

theorem foldNonZero_append :
    ∀ (xs ys : List Nat) (s : ParseState),
      foldNonZero (xs ++ ys) s =
        match foldNonZero xs s with
        | .ok s' => foldNonZero ys s'
        | .error e => .error e
  | [], _, _ => rfl
  | x :: xs, ys, s => by
    rw [List.cons_append]
    simp only [foldNonZero]
    rcases h : parse_address_char x [] s with ⟨o, s'⟩
    cases o with
    | none => exact foldNonZero_append xs ys s'
    | some r =>
      cases r with
      | error e => rfl
      | ok m => rfl

theorem foldNonZero_append_ok (xs ys : List Nat) (s s' : ParseState)
    (h : foldNonZero xs s = .ok s') :
    foldNonZero (xs ++ ys) s = foldNonZero ys s' := by
  rw [foldNonZero_append, h]

theorem foldNonZero_append_err (xs ys : List Nat) (s : ParseState)
    (e : Misaligned4B AddressDecodeErr) (h : foldNonZero xs s = .error e) :
    foldNonZero (xs ++ ys) s = .error e := by
  rw [foldNonZero_append, h]

theorem pac_zero_free :
    ∀ (xs : List Nat) (s : ParseState), (∀ b ∈ xs, b ≠ 0) →
      (∃ s', foldNonZero xs s = .ok s' ∧
        parse_address_chars xs s = (none, s')) ∨
      (∃ e s₁, foldNonZero xs s = .error e ∧
        parse_address_chars xs s = (some (.error e), s₁))
  | [], s, _ => .inl ⟨s, rfl, rfl⟩
  | x :: xs, s, hz => by
    have hx : x ≠ 0 := hz x (by simp)
    have hirr := pac_bytes_irrel x hx xs [] s
    simp only [parse_address_chars, foldNonZero, hirr]
    rcases h : parse_address_char x [] s with ⟨o, s'⟩
    cases o with
    | none => exact pac_zero_free xs s' fun b hb => hz b (by simp [hb])
    | some r =>
      cases r with
      | error e => exact .inr ⟨e, s', rfl, rfl⟩
      | ok m =>
        rcases pac_ne_zero_cases x hx [] s with ⟨s'', hh⟩ | ⟨e, hh⟩ <;>
          rw [h] at hh <;> simp at hh

theorem pac_with_zero :
    ∀ (A W : List Nat) (s : ParseState),
      (∀ b ∈ A, b ≠ 0) → (∀ b ∈ W, b = 0) →
      (∃ e s₁, foldNonZero A s = .error e ∧
        parse_address_chars (A ++ 0 :: W) s = (some (.error e), s₁)) ∨
      (∃ s', foldNonZero A s = .ok s' ∧ s'.post_slash = true ∧
        parse_address_chars (A ++ 0 :: W) s =
          (some (.error (.Other .NoMethod)), s')) ∨
      (∃ s', foldNonZero A s = .ok s' ∧ s'.post_slash = false ∧
        parse_address_chars (A ++ 0 :: W) s =
          (some (.ok (s'.v.getLastD [])), ⟨false, s'.v.dropLast⟩))
  | [], W, s, _, hw => by
    have hWall : W.all (· = 0) = true := by
      rw [List.all_eq_true]
      intro b hb
      simpa using hw b hb
    cases hps : s.post_slash with
    | true =>
      refine .inr (.inl ⟨s, rfl, hps, ?_⟩)
      simp [parse_address_chars, parse_address_char, hps]
    | false =>
      refine .inr (.inr ⟨s, rfl, hps, ?_⟩)
      simp [parse_address_chars, parse_address_char, hps, hWall]
  | a :: A, W, s, hz, hw => by
    have ha : a ≠ 0 := hz a (by simp)
    rw [List.cons_append, parse_address_chars_cons, foldNonZero_cons,
      pac_bytes_irrel a ha (A ++ 0 :: W) []]
    rcases h : parse_address_char a [] s with ⟨o, s'⟩
    cases o with
    | none => exact pac_with_zero A W s' (fun b hb => hz b (by simp [hb])) hw
    | some r =>
      cases r with
      | error e => exact .inl ⟨e, s', rfl, rfl⟩
      | ok m =>
        rcases pac_ne_zero_cases a ha [] s with ⟨s'', hh⟩ | ⟨e, hh⟩ <;>
          rw [h] at hh <;> simp at hh

theorem foldNonZero_seg :
    ∀ (cs : List Nat) (v₀ : List (List Nat)) (last : List Nat),
      (∀ c ∈ cs, valid_address_character c = true) →
      foldNonZero cs ⟨false, v₀ ++ [last]⟩ = .ok ⟨false, v₀ ++ [last ++ cs]⟩
  | [], v₀, last, _ => by simp [foldNonZero]
  | c :: cs, v₀, last, hv => by
    have hc : valid_address_character c = true := hv c (by simp)
    rw [foldNonZero_cons, pac_valid_char c hc]
    have ih := foldNonZero_seg cs v₀ (last ++ [c])
      fun x hx => hv x (by simp [hx])
    show foldNonZero cs ⟨false, pushLast (v₀ ++ [last]) c⟩ = _
    rw [pushLast_concat, ih]
    simp

theorem foldNonZero_body :
    ∀ (segs : List (List Nat)) (v₀ : List (List Nat)),
      (∀ t ∈ segs, ∀ c ∈ t, valid_address_character c = true) →
      foldNonZero (addrBody segs) ⟨false, v₀⟩ = .ok ⟨false, v₀ ++ segs⟩
  | [], v₀, _ => by simp [addrBody, foldNonZero]
  | t :: segs, v₀, hv => by
    show foldNonZero ((47 :: t) ++ addrBody segs) ⟨false, v₀⟩ = _
    rw [List.cons_append, foldNonZero_cons, pac_slash]
    show foldNonZero (t ++ addrBody segs) ⟨false, v₀ ++ [[]]⟩ = _
    have h1 : foldNonZero t ⟨false, v₀ ++ [[]]⟩ = .ok ⟨false, v₀ ++ [t]⟩ := by
      have := foldNonZero_seg t v₀ [] (hv t (by simp))
      simpa using this
    rw [foldNonZero_append_ok _ _ _ _ h1,
      foldNonZero_body segs (v₀ ++ [t]) fun x hx => hv x (by simp [hx])]
    simp

theorem valid_char_ne_zero (c : Nat)
    (hc : valid_address_character c = true) : c ≠ 0 := by
  have := (valid_char_props c hc).1
  omega

theorem addrBody_ne_zero :
    ∀ segs : List (List Nat),
      (∀ t ∈ segs, ∀ c ∈ t, valid_address_character c = true) →
      ∀ b ∈ addrBody segs, b ≠ 0
  | [], _, b, hb => by simp [addrBody] at hb
  | t :: segs, hv, b, hb => by
    simp only [addrBody, List.cons_append, List.mem_cons,
      List.mem_append] at hb
    rcases hb with rfl | hb | hb
    · omega
    · exact valid_char_ne_zero b (hv t (by simp) b hb)
    · exact addrBody_ne_zero segs (fun x hx => hv x (by simp [hx])) b hb

theorem addressRaw_eq :
    ∀ segs : List (List Nat), addressRaw segs = addrBody segs ++ [0]
  | [] => rfl
  | s :: rest => by
    simp [addressRaw, addrBody, addressRaw_eq rest]

theorem loop_to_from (b0 b1 b2 b3 : Nat) (rest : List Nat) (s : ParseState) :
    address_decode_loop (b0 :: b1 :: b2 :: b3 :: rest) s =
      address_decode_from [b0, b1, b2, b3] rest s :=
  rfl

theorem decode_to_from (b1 b2 b3 : Nat) (rest : List Nat) :
    address_decode (47 :: b1 :: b2 :: b3 :: rest) =
      address_decode_from [b1, b2, b3] rest ⟨true, [[]]⟩ := by
  simp only [address_decode, address_decode_from, parse_address_chars_cons]
  rw [if_neg (by simp)]
  rcases h : parse_address_char b1 [b2, b3] ⟨true, [[]]⟩ with ⟨o, s'⟩
  cases o with
  | none =>
    rcases h2 : parse_address_chars [b2, b3] s' with ⟨o2, s''⟩
    cases o2 with
    | none => rfl
    | some r2 => cases r2 <;> rfl
  | some r => cases r <;> rfl

theorem decode_from_zeroes (rest chunk : List Nat) (s : ParseState)
    (A : List Nat) (p : Nat)
    (heq : chunk ++ rest = A ++ 0 :: List.replicate p 0)
    (hA : ∀ b ∈ A, b ≠ 0) (hp : p ≤ 3) (hr : rest.length % 4 = 0) :
    address_decode_from chunk rest s =
      match foldNonZero A s with
      | .error e => .error e
      | .ok s' =>
        if s'.post_slash then .error (.Other .NoMethod)
        else .ok (⟨s'.v.dropLast, s'.v.getLastD []⟩, []) := by
  rcases List.append_eq_append_iff.mp heq with ⟨A₂, hA2, hrest2⟩ | ⟨c', hc', hd⟩
  · subst hA2
    have hchunkz : ∀ b ∈ chunk, b ≠ 0 := fun b hb => hA b (by simp [hb])
    have hA2z : ∀ b ∈ A₂, b ≠ 0 := fun b hb => hA b (by simp [hb])
    rcases pac_zero_free chunk s hchunkz with ⟨s', hf, hpc⟩ | ⟨e, s₁, hf, hpc⟩
    · have hne : rest.length ≠ 0 := by
        rw [hrest2]
        simp
      have hlen4 : 4 ≤ rest.length := by omega
      obtain ⟨c0, c1, c2, c3, rest'', hrr⟩ :
          ∃ c0 c1 c2 c3 rest'', rest = c0 :: c1 :: c2 :: c3 :: rest'' := by
        rcases rest with _ | ⟨c0, _ | ⟨c1, _ | ⟨c2, _ | ⟨c3, r⟩⟩⟩⟩
        · simp at hlen4
        · simp at hlen4
        · simp at hlen4
        · simp at hlen4
        · exact ⟨_, _, _, _, _, rfl⟩
      have hlt : rest''.length < rest.length := by
        rw [hrr]
        simp only [List.length_cons]
        omega
      have hstep : address_decode_from chunk rest s =
          address_decode_from [c0, c1, c2, c3] rest'' s' := by
        unfold address_decode_from
        rw [hpc, hrr]
        rfl
      have hheq2 : [c0, c1, c2, c3] ++ rest'' = A₂ ++ 0 :: List.replicate p 0 := by
        have h' := hrest2
        rw [hrr] at h'
        simpa using h'
      have hhr2 : rest''.length % 4 = 0 := by
        rw [hrr] at hr
        simp only [List.length_cons] at hr
        omega
      rw [hstep,
        decode_from_zeroes rest'' [c0, c1, c2, c3] s' A₂ p hheq2 hA2z hp hhr2,
        foldNonZero_append_ok chunk A₂ s s' hf]
    · have hstep : address_decode_from chunk rest s = .error e := by
        unfold address_decode_from
        rw [hpc]
      rw [hstep, foldNonZero_append_err chunk A₂ s e hf]
  · cases c' with
    | nil =>
      simp only [List.append_nil] at hc'
      simp only [List.nil_append] at hd
      have hchz : ∀ b ∈ chunk, b ≠ 0 := by
        rw [hc']
        exact hA
      rw [← hc']
      have hp3 : p = 3 := by
        rw [← hd] at hr
        simp only [List.length_cons, List.length_replicate] at hr
        omega
      subst hp3
      have hlt : ([] : List Nat).length < rest.length := by
        rw [← hd]
        simp
      rcases pac_zero_free chunk s hchz with ⟨s', hf, hpc⟩ | ⟨e, s₁, hf, hpc⟩
      · have hstep : address_decode_from chunk rest s =
            address_decode_from [0, 0, 0, 0] [] s' := by
          unfold address_decode_from
          rw [hpc, ← hd]
          rfl
        rw [hstep,
          decode_from_zeroes [] [0, 0, 0, 0] s' [] 3 (by simp) (by simp)
            (by omega) (by simp),
          hf]
        rfl
      · have hstep : address_decode_from chunk rest s = .error e := by
          unfold address_decode_from
          rw [hpc]
        rw [hstep, hf]
    | cons w W' =>
      rw [List.cons_append] at hd
      injection hd with hw hrepl
      subst hw
      have hWz : ∀ b ∈ W', b = 0 := by
        intro b hb
        have hmem : b ∈ List.replicate p 0 := by
          rw [hrepl]
          exact List.mem_append.mpr (.inl hb)
        exact List.eq_of_mem_replicate hmem
      have hlen : p = W'.length + rest.length := by
        have := congrArg List.length hrepl
        simpa using this
      have hrest0 : rest = [] := by
        have h0 : rest.length = 0 := by omega
        exact List.eq_nil_of_length_eq_zero h0
      subst hrest0
      subst hc'
      rcases pac_with_zero A W' s hA hWz with
        ⟨e, s₁, hf, hpc⟩ | ⟨s', hf, hps, hpc⟩ | ⟨s', hf, hps, hpc⟩
      · have hstep : address_decode_from (A ++ 0 :: W') [] s = .error e := by
          unfold address_decode_from
          rw [hpc]
        rw [hstep, hf]
      · have hstep : address_decode_from (A ++ 0 :: W') [] s =
            .error (.Other .NoMethod) := by
          unfold address_decode_from
          rw [hpc]
        rw [hstep, hf]
        simp [hps]
      · have hstep : address_decode_from (A ++ 0 :: W') [] s =
            .ok (⟨s'.v.dropLast, s'.v.getLastD []⟩, []) := by
          unfold address_decode_from
          rw [hpc]
        rw [hstep, hf]
        simp [hps]
termination_by rest.length
decreasing_by
  all_goals omega

---------------- helper lemmas on address construction and strings ----------------

theorem find_invalid_none :
    ∀ s : List Nat, (∀ c ∈ s, valid_address_character c = true) →
      find_invalid s = none
  | [], _ => rfl
  | c :: rest, h => by
    have hc : valid_address_character c = true := h c (by simp)
    simp only [find_invalid, hc, if_true]
    exact find_invalid_none rest fun x hx => h x (by simp [hx])

theorem forall_mem_append {P : Nat → Prop} {xs ys : List Nat}
    (hx : ∀ b ∈ xs, P b) (hy : ∀ b ∈ ys, P b) : ∀ b ∈ xs ++ ys, P b := by
  intro b hb
  rcases List.mem_append.mp hb with h | h
  · exact hx b h
  · exact hy b h

theorem dynamicString_loop_invariant :
    ∀ (l acc s rest : List Nat),
      dynamicString_decode_loop acc l = .ok (⟨s⟩, rest) →
      (∀ b ∈ acc, b ≤ 127 ∧ b ≠ 0) → ∀ b ∈ s, b ≤ 127 ∧ b ≠ 0
  | [], _, _, _, h, _ => by simp [dynamicString_decode_loop] at h
  | [_], _, _, _, h, _ => by simp [dynamicString_decode_loop] at h
  | [_, _], _, _, _, h, _ => by simp [dynamicString_decode_loop] at h
  | [_, _, _], _, _, _, h, _ => by simp [dynamicString_decode_loop] at h
  | a :: b :: c :: d :: l, acc, s, rest, h, hacc => by
    simp only [dynamicString_decode_loop] at h
    split_ifs at h with h1 h2 h3 h4 h5 h6 h7 h8 h9 h10 h11
    all_goals try simp at h
    all_goals try (obtain ⟨hs, hrest⟩ := h; subst hs)
    all_goals try exact hacc
    all_goals try
      (refine forall_mem_append hacc ?_
       intro x hx
       simp only [List.mem_cons, List.mem_singleton, List.not_mem_nil,
         or_false] at hx
       omega)
    all_goals
      refine dynamicString_loop_invariant l (acc ++ [a, b, c, d]) s rest h ?_
    all_goals
      refine forall_mem_append hacc ?_
    all_goals
      intro x hx
      simp only [List.mem_cons, List.not_mem_nil, or_false] at hx
      omega

---------------- the claims ----------------

/-- Claim C2: for every valid Address value (every path segment and the
method non-empty and made only of printable-ASCII characters outside the
OSC blacklist), decoding the byte stream produced by encoding it returns
Ok of the same address, with the same path segments and the same method,
consuming the whole stream. -/
theorem address_roundtrip (path : List (List Nat)) (method : List Nat)
    (h : ∀ t ∈ path ++ [method],
      t ≠ [] ∧ ∀ c ∈ t, valid_address_character c = true) :
    address_decode (address_into_iter ⟨path, method⟩) =
      .ok (⟨path, method⟩, []) := by
  rcases hsegs : path ++ [method] with _ | ⟨s₁, rest'⟩
  · exact absurd hsegs (by simp)
  have hvalid : ∀ t ∈ s₁ :: rest',
      t ≠ [] ∧ ∀ c ∈ t, valid_address_character c = true := by
    rw [← hsegs]
    exact h
  obtain ⟨c₀, cs, hs₁⟩ : ∃ c cs, s₁ = c :: cs := by
    rcases s₁ with _ | ⟨c, cs⟩
    · exact absurd rfl (hvalid [] (by simp)).1
    · exact ⟨c, cs, rfl⟩
  have hs₁v : ∀ c ∈ s₁, valid_address_character c = true :=
    (hvalid s₁ (by simp)).2
  have hrest'v : ∀ t ∈ rest', ∀ c ∈ t, valid_address_character c = true :=
    fun t ht => (hvalid t (by simp [ht])).2
  set p := (4 - (addressRaw (s₁ :: rest')).length % 4) % 4 with hpdef
  have hple : p ≤ 3 := by omega
  have hstream : address_into_iter ⟨path, method⟩ =
      47 :: ((s₁ ++ addrBody rest') ++ 0 :: List.replicate p 0) := by
    show batchedRun (addressRaw (path ++ [method])) = _
    rw [hsegs, batched_eq, ← hpdef, addressRaw_eq]
    simp only [addrBody]
    simp [List.cons_append, List.append_assoc]
  have hintoiter : address_into_iter ⟨path, method⟩ =
      batchedRun (addressRaw (path ++ [method])) := rfl
  have hmod0 : (address_into_iter ⟨path, method⟩).length % 4 = 0 := by
    rw [hintoiter]
    exact batched_len_mod _
  have hTlen : ((s₁ ++ addrBody rest') ++ 0 :: List.replicate p 0).length % 4
      = 3 := by
    have h' := hmod0
    rw [hstream] at h'
    simp only [List.length_cons] at h'
    omega
  obtain ⟨t1, t2, t3, R, hTc⟩ :
      ∃ t1 t2 t3 R, (s₁ ++ addrBody rest') ++ 0 :: List.replicate p 0 =
        t1 :: t2 :: t3 :: R := by
    rcases hE : (s₁ ++ addrBody rest') ++ 0 :: List.replicate p 0 with
      _ | ⟨a, _ | ⟨b, _ | ⟨c, R⟩⟩⟩
    · rw [hE] at hTlen
      simp at hTlen
    · rw [hE] at hTlen
      simp at hTlen
    · rw [hE] at hTlen
      simp at hTlen
    · exact ⟨a, b, c, R, rfl⟩
  have hR4 : R.length % 4 = 0 := by
    rw [hTc] at hTlen
    simp only [List.length_cons] at hTlen
    omega
  have hchunkeq : [t1, t2, t3] ++ R =
      (s₁ ++ addrBody rest') ++ 0 :: List.replicate p 0 := by
    rw [hTc]
    rfl
  have hAz : ∀ b ∈ s₁ ++ addrBody rest', b ≠ 0 := by
    intro b hb
    rcases List.mem_append.mp hb with hb | hb
    · exact valid_char_ne_zero b (hs₁v b hb)
    · exact addrBody_ne_zero rest' hrest'v b hb
  rw [hstream, hTc, decode_to_from,
    decode_from_zeroes R [t1, t2, t3] ⟨true, [[]]⟩ (s₁ ++ addrBody rest') p
      hchunkeq hAz hple hR4]
  have hfold : foldNonZero (s₁ ++ addrBody rest') ⟨true, [[]]⟩ =
      .ok ⟨false, s₁ :: rest'⟩ := by
    rw [hs₁, List.cons_append, foldNonZero_cons,
      pac_valid_char c₀ (hs₁v c₀ (by rw [hs₁]; simp))]
    show foldNonZero (cs ++ addrBody rest') ⟨false, [[c₀]]⟩ = _
    have h1 : foldNonZero cs ⟨false, [[c₀]]⟩ = .ok ⟨false, [c₀ :: cs]⟩ := by
      have h2 := foldNonZero_seg cs [] [c₀]
        fun x hx => hs₁v x (by rw [hs₁]; simp [hx])
      simpa using h2
    rw [foldNonZero_append_ok _ _ _ _ h1,
      foldNonZero_body rest' [c₀ :: cs] hrest'v]
    simp
  rw [hfold]
  show Except.ok
      ((⟨(s₁ :: rest').dropLast, (s₁ :: rest').getLastD []⟩ : OscAddress),
        ([] : List Nat)) = _
  rw [← hsegs, List.dropLast_concat, List.getLastD_concat]

/-- Claim C2, witness: the address with path [l] and method m encodes to
eight bytes that decode back to it exactly. -/
theorem address_roundtrip_witness :
    address_decode (address_into_iter ⟨[[108]], [109]⟩) =
      .ok (⟨[[108]], [109]⟩, []) :=
  address_roundtrip [[108]] [109] (by decide)

/-- Claim C1: the claim states that encoding a blob (both flavors) emits a
4-byte big-endian length prefix before the padded content. The code does
not: `Blob::into_iter` and `DynamicBlob::into_iter` emit only the padded
content bytes, while `DynamicBlob::decode` expects the prefix, so the
content [5, 6, 7, 8] encodes to itself with no [0, 0, 0, 4] prefix. -/
theorem blob_encode_no_size_bug :
    blob_into_iter ⟨[5, 6, 7, 8]⟩ = [5, 6, 7, 8] ∧
    dynamicBlob_into_iter ⟨[5, 6, 7, 8]⟩ = [5, 6, 7, 8] ∧
    ([5, 6, 7, 8] : List Nat) ≠ [0, 0, 0, 4] ++ [5, 6, 7, 8] :=
  ⟨rfl, rfl, by decide⟩

/-- Claim C3: the claim states that after reading a non-negative length n
the blob decoder reads ceil(n / 4) further 4-byte units, accumulating all
four bytes of each. The code computes `size >> 3` units instead: for
n = 4 it reads 0 units (claim: 1), leaving the content unconsumed, and for
n = 8 it reads 1 unit (claim: 2). -/
theorem blob_decode_chunks_bug :
    dynamicBlob_decode [0, 0, 0, 4, 1, 2, 3, 4] =
      some (.ok (⟨[]⟩, [1, 2, 3, 4])) ∧
    dynamicBlob_decode [0, 0, 0, 8, 1, 2, 3, 4, 5, 6, 7, 8] =
      some (.ok (⟨[1, 2, 3, 4]⟩, [5, 6, 7, 8])) :=
  ⟨rfl, rfl⟩

/-- Claim C4: the claim states that a slash read while the just-saw-slash
flag is set fails with EmptySegment (the flag being set after every slash)
and a null right after a slash fails with NoMethod, so a decoded address
never holds an empty segment or method. The code never sets the flag in
its slash branch, so decoding the bytes of /a//b yields Ok with the empty
segment kept, and decoding /a/ yields Ok with an empty method. -/
theorem address_decode_empty_segment_bug :
    address_decode [47, 97, 47, 47, 98, 0, 0, 0] =
      .ok (⟨[[97], []], [98]⟩, []) ∧
    address_decode [47, 97, 47, 0] = .ok (⟨[[97]], []⟩, []) :=
  ⟨rfl, rfl⟩

/-- Claim C5: a message's byte stream is exactly the padded address bytes,
then the padded tag string (comma, one tag byte per element in declared
order, null terminator, padded), then each element's own already-padded
encoded bytes in declared order; the oscillator/4/frequency message with
the float 440.0 (big-endian bytes 0x43 0xDC 0x00 0x00) encodes to exactly
the 32 bytes below. -/
theorem message_into_iter_spec :
    (∀ (a : OscAddress) (data : List Data),
      message_into_iter a data =
        address_into_iter a ++ tags_into_iter ⟨data.map Data.type_tag⟩ ++
          (data.map Data.into_iter).flatten) ∧
    message_into_iter
        ⟨[[111, 115, 99, 105, 108, 108, 97, 116, 111, 114], [52]],
          [102, 114, 101, 113, 117, 101, 110, 99, 121]⟩
        [Data.Float ⟨[67, 220, 0, 0]⟩] =
      [47, 111, 115, 99, 105, 108, 108, 97, 116, 111, 114, 47, 52, 47,
        102, 114, 101, 113, 117, 101, 110, 99, 121, 0,
        44, 102, 0, 0,
        67, 220, 0, 0] :=
  ⟨fun _ _ => rfl, rfl⟩

/-- Claim C6: the padding transformation emits exactly the input followed
by zero bytes, and its output length is the least multiple of 4 at or
above the input length (so an already aligned input gains no bytes, the
appended count being (4 - len mod 4) mod 4, which is zero there). -/
theorem batched_spec (l : List Nat) :
    batchedRun l = l ++ List.replicate ((4 - l.length % 4) % 4) 0 ∧
    (batchedRun l).length = 4 * ((l.length + 3) / 4) := by
  refine ⟨batched_eq l, ?_⟩
  rw [batched_eq l]
  simp only [List.length_append, List.length_replicate]
  omega

/-- Claim C7: the claim states that when an atomic value decode fails,
Dynamic::decode returns that first failure as an error value and never
exhibits undefined behavior. The code passes each atomic decode through
`unwrap_unchecked`, so a failing one is undefined behavior (modelled as
none): with tags ,s and the non-ASCII payload byte 200 the string decode
fails with NonAscii 200, yet Dynamic::decode hits undefined behavior
instead of returning that error. -/
theorem dynamic_decode_ub_bug :
    dynamic_decode [44, 115, 0, 0, 200, 0, 0, 0] = none ∧
    dynamicString_decode [200, 0, 0, 0] =
      .error (.Other (.NonAscii 200)) ∧
    tags_decode [44, 115, 0, 0, 200, 0, 0, 0] =
      .ok (⟨[.String]⟩, [200, 0, 0, 0]) :=
  ⟨rfl, rfl, rfl⟩

/-- Claim C8, counterexample: the claim states that `into_address` on an
empty path sequence returns an error for every method; in the code it
succeeds, e.g. with the method foo. -/
theorem into_address_empty_path_ok :
    into_address [] [102, 111, 111] = .ok ⟨[], [102, 111, 111]⟩ :=
  rfl

/-- Claim C8, amended: constructing an Address from an empty segment list
does not in itself fail: for every non-empty method of valid characters,
`into_address` on an empty path returns Ok(Address([], method)); the Empty
error is raised only for an empty individual segment or an empty method. -/
theorem into_address_empty_path_amended (method : List Nat)
    (h1 : method ≠ []) (h2 : ∀ c ∈ method, valid_address_character c = true) :
    into_address [] method = .ok ⟨[], method⟩ := by
  cases method with
  | nil => exact absurd rfl h1
  | cons c rest =>
    have hc : valid_address_character c = true := h2 c (by simp)
    have hrest : find_invalid rest = none :=
      find_invalid_none rest fun x hx => h2 x (by simp [hx])
    simp [into_address, path_check, segment_check, hc, hrest]

/-- Claim C8, witness for the amended statement at the method foo. -/
theorem into_address_empty_path_amended_witness :
    into_address [] [102, 111, 111] = .ok ⟨[], [102, 111, 111]⟩ :=
  into_address_empty_path_amended [102, 111, 111] (by decide) (by decide)

/-- Claim C9: the claim states that the aligned reader's error wrapper is
a 3-way distinction (full unit, clean end of stream, mid-unit end), with
an exhausted source reported as the clean-end outcome distinct from the
misalignment error. The wrapper declared in src/decode.rs has only the two
constructors Misaligned and Other, so with an infallible payload every
value of it is Misaligned, and reading a unit from an exhausted (or
partial) source yields Misaligned — no distinct clean-end outcome
exists. -/
theorem misaligned4B_two_way_bug :
    aligned4B_decode [] = .error .Misaligned ∧
    aligned4B_decode [1, 2, 3] = .error .Misaligned ∧
    ∀ x : Misaligned4B Empty, x = .Misaligned := by
  refine ⟨rfl, rfl, fun x => ?_⟩
  cases x with
  | Misaligned => rfl
  | Other e => exact e.elim

/-- Claim C10: whenever `DynamicString::decode` succeeds, every byte of the
result is ASCII and non-null, so the result satisfies the very invariant
`TryFrom` enforces at construction: feeding the decoded bytes back through
the constructor succeeds. -/
theorem dynamicString_decode_invariant (l s rest : List Nat)
    (h : dynamicString_decode l = .ok (⟨s⟩, rest)) :
    (∀ b ∈ s, b ≤ 127 ∧ b ≠ 0) ∧ dynamicString_tryFrom s = .ok ⟨s⟩ := by
  have hmem : ∀ b ∈ s, b ≤ 127 ∧ b ≠ 0 :=
    dynamicString_loop_invariant l [] s rest h (by simp)
  refine ⟨hmem, ?_⟩
  have h1 : s.all (· ≤ 127) = true := by
    rw [List.all_eq_true]
    intro b hb
    simpa using (hmem b hb).1
  have h2 : ¬ s.contains 0 = true := by
    rw [List.elem_iff]
    intro hmem0
    exact (hmem 0 hmem0).2 rfl
  unfold dynamicString_tryFrom
  rw [if_neg (by simp [h1]), if_neg h2]

/-- Claim C10, witness: decoding the padded bytes of the string ab
succeeds, and the decoded bytes are ASCII, non-null and accepted by the
constructor. -/
theorem dynamicString_decode_invariant_witness :
    (∀ b ∈ [97, 98], b ≤ 127 ∧ b ≠ 0) ∧
    dynamicString_tryFrom [97, 98] = .ok ⟨[97, 98]⟩ :=
  dynamicString_decode_invariant [97, 98, 0, 0] [97, 98] [] rfl

end Osc
